import Mathlib

/-!
Verification of the SafeAging per-camera analytics core
(`src/device_agent.cpp`, `src/object_detector.cpp`).

The C++ code is shallowly embedded: `float` coordinate arithmetic is
modelled over `ℚ` (the operations involved — `max`, `min`, `+`, `-`,
`*`, `/` — are order- and sign-exact, which is all the proved
properties depend on), `int64_t` timestamps over `ℤ`, `std::map` /
`std::set` over association lists and `Finset ℕ`, and exceptions over
`Except`.  UUIDs (`nx::sdk::Uuid`) are modelled as natural numbers,
with random allocation abstracted to a fresh counter.
-/

namespace SafeAging

/-- `nx::sdk::analytics::Rect`: a box with normalized coordinates
(device_agent.h); fields as in the SDK type. -/
structure Rect where
  x : ℚ
  y : ℚ
  width : ℚ
  height : ℚ
  deriving DecidableEq, Repr

/-- `clamp01` (device_agent.cpp:30-33 and object_detector.cpp:32-35):
`std::max(0.0F, std::min(1.0F, value))`. -/
def clamp01 (value : ℚ) : ℚ := max 0 (min 1 value)

/-- `DeviceAgent::iou` (device_agent.cpp:480-507). -/
def iou (a b : Rect) : ℚ :=
  let ax1 := a.x
  let ay1 := a.y
  let ax2 := a.x + a.width
  let ay2 := a.y + a.height
  let bx1 := b.x
  let by1 := b.y
  let bx2 := b.x + b.width
  let by2 := b.y + b.height
  let ix1 := max ax1 bx1
  let iy1 := max ay1 by1
  let ix2 := min ax2 bx2
  let iy2 := min ay2 by2
  let iw := max 0 (ix2 - ix1)
  let ih := max 0 (iy2 - iy1)
  let intersection := iw * ih
  let areaA := max 0 ((ax2 - ax1) * (ay2 - ay1))
  let areaB := max 0 ((bx2 - bx1) * (by2 - by1))
  if areaA ≤ 0 ∨ areaB ≤ 0 then 0
  else intersection / (areaA + areaB - intersection + 1 / 1000000)

/-- `Detection` (detection.h:13-21).  `trackId` (`nx::sdk::Uuid`) is a
natural number here; the default-constructed (zero) UUID is `0`. -/
structure Detection where
  bbox : Rect
  classLabel : String
  confidence : ℚ
  fallDetected : Bool
  aiTrackId : Option ℤ
  trackId : ℕ
  deriving DecidableEq, Repr

abbrev DetectionList := List Detection

/-- Object type id `kPersonObjectType` (device_agent.h). -/
def kPersonObjectType : String := "mycompany.yolov8.person"

/-- Object type id `kGenericObjectType` (device_agent.h). -/
def kGenericObjectType : String := "mycompany.yolov8.object"

/-- Event type id `kFallEventType` (device_agent.h). -/
def kFallEventType : String := "mycompany.yolov8.fallDetected"

/-- One item of an `ObjectMetadataPacket` as filled in by
`DeviceAgent::makeObjectPacket` (device_agent.cpp:362-401): bounding
box, confidence, track UUID, type id, plus the `classLabel` and
`fallDetected` attributes (the `confidence` attribute repeats the
`confidence` field). -/
structure ObjectMetadataItem where
  boundingBox : Rect
  confidence : ℚ
  trackId : ℕ
  typeId : String
  classLabel : String
  fallDetected : Bool
  deriving DecidableEq, Repr

/-- An `ObjectMetadataPacket` (items plus `setTimestampUs`). -/
structure ObjectMetadataPacket where
  items : List ObjectMetadataItem
  timestampUs : ℤ
  deriving DecidableEq, Repr

/-- Body of the per-detection loop of `DeviceAgent::makeObjectPacket`
(device_agent.cpp:362-401): clamp the box to the unit square, trim any
`x+w`/`y+h` overflow, and skip (`continue`) the detection when the
resulting width or height is not positive. -/
def makeObjectItem (detection : Detection) : Option ObjectMetadataItem :=
  let x := clamp01 detection.bbox.x
  let y := clamp01 detection.bbox.y
  let w0 := clamp01 detection.bbox.width
  let h0 := clamp01 detection.bbox.height
  let w := if 1 < x + w0 then max 0 (1 - x) else w0
  let h := if 1 < y + h0 then max 0 (1 - y) else h0
  if w ≤ 0 ∨ h ≤ 0 then none
  else some
    { boundingBox := ⟨x, y, w, h⟩
      confidence := detection.confidence
      trackId := detection.trackId
      typeId := if detection.classLabel = "person" then kPersonObjectType else kGenericObjectType
      classLabel := detection.classLabel
      fallDetected := detection.fallDetected }

/-- `DeviceAgent::makeObjectPacket` (device_agent.cpp:355-409): returns
`nullptr` (`none`) for an empty detection list or when no detection
survives clamping; otherwise a packet holding the surviving items and
the frame timestamp. -/
def makeObjectPacket (detections : DetectionList) (timestampUs : ℤ) :
    Option ObjectMetadataPacket :=
  if detections = [] then none
  else
    let items := detections.filterMap makeObjectItem
    if items = [] then none else some ⟨items, timestampUs⟩

/-! ### Basic clamping facts -/

lemma clamp01_nonneg (v : ℚ) : 0 ≤ clamp01 v := le_max_left 0 _

lemma clamp01_le_one (v : ℚ) : clamp01 v ≤ 1 :=
  max_le (by norm_num) (min_le_left 1 v)

lemma clamp01_of_mem (v : ℚ) (h0 : 0 ≤ v) (h1 : v ≤ 1) : clamp01 v = v := by
  unfold clamp01
  rw [min_eq_right h1, max_eq_right h0]

/-- Every item produced by `makeObjectItem` satisfies the box
invariant. -/
lemma makeObjectItem_inv {d : Detection} {item : ObjectMetadataItem}
    (h : makeObjectItem d = some item) :
    0 ≤ item.boundingBox.x ∧ 0 ≤ item.boundingBox.y ∧
    item.boundingBox.x + item.boundingBox.width ≤ 1 ∧
    item.boundingBox.y + item.boundingBox.height ≤ 1 ∧
    0 < item.boundingBox.width ∧ 0 < item.boundingBox.height := by
  unfold makeObjectItem at h
  set x := clamp01 d.bbox.x with hxdef
  set y := clamp01 d.bbox.y with hydef
  set w0 := clamp01 d.bbox.width with hw0def
  set h0 := clamp01 d.bbox.height with hh0def
  by_cases hguard :
      (if 1 < x + w0 then max 0 (1 - x) else w0) ≤ 0 ∨
      (if 1 < y + h0 then max 0 (1 - y) else h0) ≤ 0
  · simp only [hguard, if_pos] at h
    exact absurd h (by simp)
  · simp only [hguard, if_neg, not_false_eq_true] at h
    push_neg at hguard
    obtain ⟨hw, hh⟩ := hguard
    obtain rfl : item =
        { boundingBox :=
            ⟨x, y, if 1 < x + w0 then max 0 (1 - x) else w0,
              if 1 < y + h0 then max 0 (1 - y) else h0⟩
          confidence := d.confidence
          trackId := d.trackId
          typeId := if d.classLabel = "person" then kPersonObjectType else kGenericObjectType
          classLabel := d.classLabel
          fallDetected := d.fallDetected } := by
      exact (Option.some_inj.mp h).symm
    dsimp only
    have hx1 : x ≤ 1 := clamp01_le_one _
    have hy1 : y ≤ 1 := clamp01_le_one _
    refine ⟨clamp01_nonneg _, clamp01_nonneg _, ?_, ?_, hw, hh⟩
    · split_ifs with hcase
      · have hz : (0 : ℚ) ≤ 1 - x := by linarith
        rw [max_eq_right hz]
        linarith
      · push_neg at hcase
        exact hcase
    · split_ifs with hcase
      · have hz : (0 : ℚ) ≤ 1 - y := by linarith
        rw [max_eq_right hz]
        linarith
      · push_neg at hcase
        exact hcase

/-- C1: every object-metadata item emitted by `makeObjectPacket` has a
bounding box with `0 ≤ x`, `0 ≤ y`, `x+w ≤ 1`, `y+h ≤ 1`, `w > 0`,
`h > 0`; a detection whose clamped width or height reaches 0 is
skipped (`makeObjectItem` returns `none`); a detection whose `x + w`
slightly exceeds 1 is clamped (width reduced to `1 - x`) and still
emitted when the post-clamp width is positive. -/
theorem makeObjectPacket_box_invariant :
    (∀ (detections : DetectionList) (ts : ℤ) (p : ObjectMetadataPacket),
      makeObjectPacket detections ts = some p →
      ∀ item ∈ p.items,
        0 ≤ item.boundingBox.x ∧ 0 ≤ item.boundingBox.y ∧
        item.boundingBox.x + item.boundingBox.width ≤ 1 ∧
        item.boundingBox.y + item.boundingBox.height ≤ 1 ∧
        0 < item.boundingBox.width ∧ 0 < item.boundingBox.height) ∧
    (∀ d : Detection,
      ((if 1 < clamp01 d.bbox.x + clamp01 d.bbox.width
          then max 0 (1 - clamp01 d.bbox.x) else clamp01 d.bbox.width) ≤ 0 ∨
       (if 1 < clamp01 d.bbox.y + clamp01 d.bbox.height
          then max 0 (1 - clamp01 d.bbox.y) else clamp01 d.bbox.height) ≤ 0) →
      makeObjectItem d = none) ∧
    (∀ (d : Detection) (ts : ℤ),
      0 ≤ d.bbox.x → d.bbox.x < 1 → 1 < d.bbox.x + d.bbox.width → d.bbox.width ≤ 1 →
      0 ≤ d.bbox.y → 0 < d.bbox.height → d.bbox.y + d.bbox.height ≤ 1 →
      ∃ item, makeObjectItem d = some item ∧
        item.boundingBox.width = 1 - d.bbox.x ∧
        makeObjectPacket [d] ts = some ⟨[item], ts⟩) := by
  refine ⟨?_, ?_, ?_⟩
  · intro detections ts p hp item hitem
    unfold makeObjectPacket at hp
    by_cases hd : detections = []
    · simp [hd] at hp
    · simp only [hd, if_neg, not_false_eq_true] at hp
      by_cases hitems : detections.filterMap makeObjectItem = []
      · simp [hitems] at hp
      · simp only [hitems, if_neg, not_false_eq_true, Option.some_inj] at hp
        subst hp
        simp only [List.mem_filterMap] at hitem
        obtain ⟨d, _, hmk⟩ := hitem
        exact makeObjectItem_inv hmk
  · intro d hguard
    unfold makeObjectItem
    simp only [hguard, if_pos]
  · intro d ts hx0 hx1 hover hw1 hy0 hh0 hyh1
    have hxc : clamp01 d.bbox.x = d.bbox.x := clamp01_of_mem _ hx0 (le_of_lt hx1)
    have hyc : clamp01 d.bbox.y = d.bbox.y := clamp01_of_mem _ hy0 (by linarith)
    have hwc : clamp01 d.bbox.width = d.bbox.width :=
      clamp01_of_mem _ (by linarith) hw1
    have hhc : clamp01 d.bbox.height = d.bbox.height :=
      clamp01_of_mem _ (le_of_lt hh0) (by linarith)
    have hwpos : (0 : ℚ) < 1 - d.bbox.x := by linarith
    have hitem : makeObjectItem d = some
        { boundingBox := ⟨d.bbox.x, d.bbox.y, 1 - d.bbox.x, d.bbox.height⟩
          confidence := d.confidence
          trackId := d.trackId
          typeId := if d.classLabel = "person" then kPersonObjectType
                    else kGenericObjectType
          classLabel := d.classLabel
          fallDetected := d.fallDetected } := by
      unfold makeObjectItem
      dsimp only
      rw [hxc, hyc, hwc, hhc]
      rw [if_pos hover, if_neg (by linarith : ¬ 1 < d.bbox.y + d.bbox.height)]
      rw [max_eq_right (le_of_lt hwpos)]
      rw [if_neg (by push_neg; constructor <;> linarith)]
    refine ⟨_, hitem, rfl, ?_⟩
    unfold makeObjectPacket
    rw [if_neg (by simp : ¬ ([d] : DetectionList) = [])]
    dsimp only
    simp [List.filterMap_cons, hitem]

/-- C9 counterexample: the IoU of two identical unit squares is not 1
— the `1e-6` epsilon in the denominator makes it `1000000/1000001`. -/
theorem iou_identical_not_one :
    iou ⟨0, 0, 1, 1⟩ ⟨0, 0, 1, 1⟩ ≠ 1 ∧
    iou ⟨0, 0, 1, 1⟩ ⟨0, 0, 1, 1⟩ = 1000000 / 1000001 := by
  constructor <;> norm_num [iou]

/-- C9 (amended): `iou` returns 0 when either rectangle has zero area
and for disjoint rectangles; for identical rectangles with positive
width and height it returns `A / (A + 1e-6)` where `A` is the common
area — a value strictly between 0 and 1, not exactly 1. -/
theorem iou_props :
    (∀ a b : Rect, a.width * a.height = 0 → iou a b = 0) ∧
    (∀ a b : Rect, b.width * b.height = 0 → iou a b = 0) ∧
    (∀ a b : Rect,
      a.x + a.width ≤ b.x ∨ b.x + b.width ≤ a.x ∨
      a.y + a.height ≤ b.y ∨ b.y + b.height ≤ a.y → iou a b = 0) ∧
    (∀ a : Rect, 0 < a.width → 0 < a.height →
      iou a a = (a.width * a.height) / (a.width * a.height + 1 / 1000000) ∧
      0 < iou a a ∧ iou a a < 1) := by
  refine ⟨?_, ?_, ?_, ?_⟩
  · intro a b h
    unfold iou
    rw [if_pos]
    left
    rw [show (a.x + a.width - a.x) * (a.y + a.height - a.y) = a.width * a.height by ring, h]
    simp
  · intro a b h
    unfold iou
    rw [if_pos]
    right
    rw [show (b.x + b.width - b.x) * (b.y + b.height - b.y) = b.width * b.height by ring, h]
    simp
  · intro a b h
    unfold iou
    dsimp only
    split
    · rfl
    · rcases h with h | h | h | h
      · rw [show max 0 (min (a.x + a.width) (b.x + b.width) - max a.x b.x) = 0 from
          max_eq_left (by
            have := le_trans (min_le_left (a.x + a.width) (b.x + b.width))
              (le_trans h (le_max_right a.x b.x))
            linarith)]
        rw [zero_mul, zero_div]
      · rw [show max 0 (min (a.x + a.width) (b.x + b.width) - max a.x b.x) = 0 from
          max_eq_left (by
            have := le_trans (min_le_right (a.x + a.width) (b.x + b.width))
              (le_trans h (le_max_left a.x b.x))
            linarith)]
        rw [zero_mul, zero_div]
      · rw [show max 0 (min (a.y + a.height) (b.y + b.height) - max a.y b.y) = 0 from
          max_eq_left (by
            have := le_trans (min_le_left (a.y + a.height) (b.y + b.height))
              (le_trans h (le_max_right a.y b.y))
            linarith)]
        rw [mul_zero, zero_div]
      · rw [show max 0 (min (a.y + a.height) (b.y + b.height) - max a.y b.y) = 0 from
          max_eq_left (by
            have := le_trans (min_le_right (a.y + a.height) (b.y + b.height))
              (le_trans h (le_max_left a.y b.y))
            linarith)]
        rw [mul_zero, zero_div]
  · intro a hw hh
    have hA : (0 : ℚ) < a.width * a.height := mul_pos hw hh
    have e1 : (a.x + a.width - a.x) * (a.y + a.height - a.y) = a.width * a.height := by
      ring
    have evalEq :
        iou a a = (a.width * a.height) / (a.width * a.height + 1 / 1000000) := by
      unfold iou
      dsimp only
      rw [max_self, max_self, min_self, min_self, e1]
      rw [max_eq_right (le_of_lt hA)]
      rw [if_neg (by push_neg; constructor <;> linarith)]
      rw [show a.x + a.width - a.x = a.width by ring,
        show a.y + a.height - a.y = a.height by ring]
      rw [max_eq_right (le_of_lt hw), max_eq_right (le_of_lt hh)]
      congr 1
      ring
    refine ⟨evalEq, ?_, ?_⟩
    · rw [evalEq]
      exact div_pos hA (by linarith)
    · rw [evalEq]
      rw [div_lt_one (by linarith)]
      linarith

/-- C1 witness: a concrete detection whose `x + w = 11/10` exceeds 1 is
clamped to width `1/2` and emitted. -/
theorem makeObjectPacket_box_invariant_witness :
    ∃ item,
      makeObjectItem ⟨⟨1/2, 0, 3/5, 1/2⟩, "person", 9/10, false, none, 7⟩ = some item ∧
      item.boundingBox.width = 1 - (1/2 : ℚ) ∧
      makeObjectPacket [⟨⟨1/2, 0, 3/5, 1/2⟩, "person", 9/10, false, none, 7⟩] 1000 =
        some ⟨[item], 1000⟩ :=
  makeObjectPacket_box_invariant.2.2
    ⟨⟨1/2, 0, 3/5, 1/2⟩, "person", 9/10, false, none, 7⟩ 1000
    (by norm_num) (by norm_num) (by norm_num) (by norm_num)
    (by norm_num) (by norm_num) (by norm_num)

/-- C9 witness: `iou` evaluates to 0 on concrete disjoint boxes and is
positive on a concrete identical pair. -/
theorem iou_props_witness :
    iou ⟨0, 0, 1, 1⟩ ⟨2, 2, 1, 1⟩ = 0 ∧ 0 < iou ⟨0, 0, 1, 1⟩ ⟨0, 0, 1, 1⟩ :=
  ⟨iou_props.2.2.1 ⟨0, 0, 1, 1⟩ ⟨2, 2, 1, 1⟩ (by norm_num),
    (iou_props.2.2.2 ⟨0, 0, 1, 1⟩ (by norm_num) (by norm_num)).2.1⟩

/-! ### Detector Client (`object_detector.cpp`)

The HTTP round-trip is modelled by a `ServiceOutcome`: what the
outside world (encoder, network, AI service) did on this call.
`callService` maps an outcome to what
`ObjectDetector::callService` does with it — either a thrown exception
(`Except.error`) or a normalized detection list. -/

/-- One raw element of the JSON response array
(object_detector.cpp:135-168), after nlohmann `value(...)` defaulting:
missing numerics are 0, missing booleans false, a missing class label
is "person", and `track_id` parse failures are `none`. -/
structure RawDetection where
  x : ℚ
  y : ℚ
  w : ℚ
  h : ℚ
  cls : String
  score : ℚ
  fallDetected : Bool
  trackId : Option ℤ
  deriving DecidableEq, Repr

/-- Body of the response-parsing loop of `ObjectDetector::callService`
(object_detector.cpp:135-168): drop elements with non-positive pixel
size, normalize by the encoded image dimensions, clamp to the unit
square, trim `x+w`/`y+h` overflow, drop boxes whose clamped size
reaches 0.  The `trackId` UUID field is default-initialized (0). -/
def normalizeItem (encodedWidth encodedHeight : ℤ) (item : RawDetection) :
    Option Detection :=
  if item.w ≤ 0 ∨ item.h ≤ 0 then none
  else
    let xNorm := clamp01 (item.x / (encodedWidth : ℚ))
    let yNorm := clamp01 (item.y / (encodedHeight : ℚ))
    let wNorm0 := clamp01 (item.w / (encodedWidth : ℚ))
    let hNorm0 := clamp01 (item.h / (encodedHeight : ℚ))
    let wNorm := if 1 < xNorm + wNorm0 then max 0 (1 - xNorm) else wNorm0
    let hNorm := if 1 < yNorm + hNorm0 then max 0 (1 - yNorm) else hNorm0
    if wNorm ≤ 0 ∨ hNorm ≤ 0 then none
    else some
      { bbox := ⟨xNorm, yNorm, wNorm, hNorm⟩
        classLabel := item.cls
        confidence := item.score
        fallDetected := item.fallDetected
        aiTrackId := item.trackId
        trackId := 0 }

/-- What the encoder + network + AI service did on one call, seen from
`ObjectDetector::callService` (object_detector.cpp:97-171). -/
inductive ServiceOutcome where
  /-- `encodeFrameAsBase64Jpeg` threw (empty frame or `imencode` failure). -/
  | encodeFailure
  /-- `client.Post` returned no response (no connection / timeout). -/
  | noResponse
  /-- The service responded with the given non-200 HTTP status. -/
  | httpStatus (status : ℤ)
  /-- The 200 response body was not parseable JSON. -/
  | malformedJson
  /-- The 200 response body parsed but was not a JSON array. -/
  | notArray
  /-- A 200 response with a JSON array, together with the encoded
  image's dimensions. -/
  | ok (encodedWidth encodedHeight : ℤ) (items : List RawDetection)
  deriving DecidableEq, Repr

/-- `ObjectDetector::callService` (object_detector.cpp:97-171):
`Except.error` models a thrown `std::runtime_error`. -/
def callService (outcome : ServiceOutcome) : Except String DetectionList :=
  match outcome with
  | .encodeFailure => .error "encodeFrameAsBase64Jpeg failed"
  | .noResponse => .error "AI service did not respond"
  | .httpStatus status => .error ("AI service returned HTTP " ++ toString status)
  | .malformedJson => .error "JSON parse error"
  | .notArray => .error "AI response must be a JSON array"
  | .ok encodedWidth encodedHeight items =>
    if encodedWidth ≤ 0 ∨ encodedHeight ≤ 0 then
      .error "encoded frame dimensions are invalid"
    else
      .ok (items.filterMap (normalizeItem encodedWidth encodedHeight))

/-- Whether this call's outcome makes `callService` throw. -/
def callFails (outcome : ServiceOutcome) : Bool :=
  match callService outcome with
  | .ok _ => false
  | .error _ => true

/-- The breaker-related fields of `DetectorConfig`
(object_detector.h): `circuitFailureThreshold` (default 3) and
`circuitOpenMs` (default 3000).  The configuration loader clamps them
to `[1, 20]` and `[200, 60000]` respectively (engine.cpp). -/
structure DetectorConfig where
  circuitFailureThreshold : ℤ := 3
  circuitOpenMs : ℤ := 3000
  deriving DecidableEq, Repr

/-- The circuit-breaker fields of `ObjectDetector`
(object_detector.h): `m_consecutiveFailures`, `m_circuitOpen`,
`m_circuitRetryAt`.  Time (`steady_clock::time_point`, milliseconds)
is modelled by `ℤ`. -/
structure BreakerState where
  consecutiveFailures : ℤ
  circuitOpen : Bool
  circuitRetryAt : ℤ
  deriving DecidableEq, Repr

/-- The state of a freshly constructed `ObjectDetector`. -/
def initialBreakerState : BreakerState :=
  { consecutiveFailures := 0, circuitOpen := false, circuitRetryAt := 0 }

/-- `ObjectDetector::onFailure` (object_detector.cpp:221-242), minus
logging. -/
def onFailure (config : DetectorConfig) (s : BreakerState) (now : ℤ) : BreakerState :=
  let n := s.consecutiveFailures + 1
  if max 1 config.circuitFailureThreshold ≤ n then
    { consecutiveFailures := n
      circuitOpen := true
      circuitRetryAt := now + max 1 config.circuitOpenMs }
  else
    { s with consecutiveFailures := n }

/-- `ObjectDetector::onSuccess` (object_detector.cpp:244-248). -/
def onSuccess (s : BreakerState) : BreakerState :=
  { s with consecutiveFailures := 0, circuitOpen := false }

/-- `ObjectDetector::run` (object_detector.cpp:72-95): the circuit-open
fast path, the close-on-retry transition, and the `try`/`catch` around
`callService`.  Total: the `catch` turns every failure into an empty
list plus an `onFailure` update, so no exception escapes. -/
def run (config : DetectorConfig) (s : BreakerState) (now : ℤ)
    (outcome : ServiceOutcome) : BreakerState × DetectionList :=
  if s.circuitOpen ∧ now < s.circuitRetryAt then (s, [])
  else
    let s1 := if s.circuitOpen then
        { s with circuitOpen := false, consecutiveFailures := 0 }
      else s
    match callService outcome with
    | .ok detections => (onSuccess s1, detections)
    | .error _ => (onFailure config s1 now, [])

/-- The breaker state after `n` consecutive `run` calls starting from a
fresh detector, the `i`-th call made at time `times i` with service
outcome `outcomes i`. -/
def runSeq (config : DetectorConfig) (times : ℕ → ℤ) (outcomes : ℕ → ServiceOutcome) :
    ℕ → BreakerState
  | 0 => initialBreakerState
  | n + 1 =>
    (run config (runSeq config times outcomes n) (times n) (outcomes n)).1

/-! ### Circuit-breaker lemmas -/

lemma run_of_closed_fail (config : DetectorConfig) (s : BreakerState) (now : ℤ)
    (outcome : ServiceOutcome) (hclosed : s.circuitOpen = false)
    (hfail : callFails outcome = true) :
    run config s now outcome = (onFailure config s now, []) := by
  unfold run
  rw [if_neg (by simp [hclosed])]
  dsimp only
  rw [if_neg (by simp [hclosed])]
  unfold callFails at hfail
  cases hcs : callService outcome with
  | ok dets => rw [hcs] at hfail; simp at hfail
  | error e => rfl

lemma runSeq_closed_counts (config : DetectorConfig) (times : ℕ → ℤ)
    (outcomes : ℕ → ServiceOutcome)
    (hT : 1 ≤ config.circuitFailureThreshold)
    (hfail : ∀ i, callFails (outcomes i) = true) :
    ∀ k : ℕ, (k : ℤ) < config.circuitFailureThreshold →
      (runSeq config times outcomes k).circuitOpen = false ∧
      (runSeq config times outcomes k).consecutiveFailures = k := by
  intro k
  induction k with
  | zero => intro _; exact ⟨rfl, rfl⟩
  | succ k ih =>
    intro hk
    have hk' : (k : ℤ) < config.circuitFailureThreshold := by
      push_cast at hk ⊢; linarith
    obtain ⟨hopen, hcount⟩ := ih hk'
    have hstep : runSeq config times outcomes (k + 1)
        = (run config (runSeq config times outcomes k) (times k) (outcomes k)).1 := rfl
    rw [hstep, run_of_closed_fail config _ (times k) (outcomes k) hopen (hfail k)]
    unfold onFailure
    dsimp only
    rw [if_neg]
    · exact ⟨hopen, by dsimp only; rw [hcount]; push_cast; ring⟩
    · rw [hcount, max_eq_right hT]
      push_cast at hk ⊢
      linarith

/-- C4: with `circuitFailureThreshold = T ≥ 1` (the configuration
loader guarantees `T ∈ [1,20]` and `circuitOpenMs ∈ [200, 60000]`),
starting from a fresh detector under consecutively failing calls: the
breaker stays closed and the counter equals `k` after any `k < T`
failures; it opens exactly on the `T`-th failure with
`retryAt = now + circuitOpenMs`; while open with `now < retryAt` a
call returns the empty list with the state (hence the service)
untouched; at `now ≥ retryAt` the breaker closes, the counter resets
and the service outcome decides the result again; any successful call
resets the counter and closes the breaker; and every failing call made
while closed increments `consecutiveFailures`. -/
theorem circuit_breaker_trips_on_Tth_failure
    (config : DetectorConfig) (times : ℕ → ℤ) (outcomes : ℕ → ServiceOutcome)
    (hT : 1 ≤ config.circuitFailureThreshold)
    (hOpen : 1 ≤ config.circuitOpenMs)
    (hfail : ∀ i, callFails (outcomes i) = true) :
    (∀ k : ℕ, (k : ℤ) < config.circuitFailureThreshold →
      (runSeq config times outcomes k).circuitOpen = false ∧
      (runSeq config times outcomes k).consecutiveFailures = k) ∧
    (∀ k : ℕ, (k : ℤ) + 1 = config.circuitFailureThreshold →
      (runSeq config times outcomes (k + 1)).circuitOpen = true ∧
      (runSeq config times outcomes (k + 1)).circuitRetryAt
        = times k + config.circuitOpenMs) ∧
    (∀ (s : BreakerState) (now : ℤ) (outcome : ServiceOutcome),
      s.circuitOpen = true → now < s.circuitRetryAt →
      run config s now outcome = (s, [])) ∧
    (∀ (s : BreakerState) (now : ℤ) (outcome : ServiceOutcome)
        (detections : DetectionList),
      s.circuitOpen = true → s.circuitRetryAt ≤ now →
      callService outcome = .ok detections →
      run config s now outcome =
        ({ consecutiveFailures := 0, circuitOpen := false,
           circuitRetryAt := s.circuitRetryAt }, detections)) ∧
    (∀ (s : BreakerState) (now : ℤ) (outcome : ServiceOutcome),
      s.circuitOpen = true → s.circuitRetryAt ≤ now →
      callFails outcome = true →
      (run config s now outcome).1.consecutiveFailures = 1 ∧
      (run config s now outcome).2 = []) ∧
    (∀ (s : BreakerState) (now : ℤ) (outcome : ServiceOutcome)
        (detections : DetectionList),
      s.circuitOpen = false → callService outcome = .ok detections →
      (run config s now outcome).1.consecutiveFailures = 0 ∧
      (run config s now outcome).1.circuitOpen = false ∧
      (run config s now outcome).2 = detections) ∧
    (∀ (s : BreakerState) (now : ℤ) (outcome : ServiceOutcome),
      s.circuitOpen = false → callFails outcome = true →
      (run config s now outcome).1.consecutiveFailures
        = s.consecutiveFailures + 1) := by
  refine ⟨runSeq_closed_counts config times outcomes hT hfail, ?_, ?_, ?_, ?_, ?_, ?_⟩
  · intro k hk
    have hk' : (k : ℤ) < config.circuitFailureThreshold := by linarith
    obtain ⟨hopen, hcount⟩ := runSeq_closed_counts config times outcomes hT hfail k hk'
    have hstep : runSeq config times outcomes (k + 1)
        = (run config (runSeq config times outcomes k) (times k) (outcomes k)).1 := rfl
    rw [hstep, run_of_closed_fail config _ (times k) (outcomes k) hopen (hfail k)]
    unfold onFailure
    dsimp only
    rw [if_pos]
    · exact ⟨rfl, by dsimp only; rw [max_eq_right hOpen]⟩
    · rw [hcount, max_eq_right hT]
      linarith
  · intro s now outcome hopen hnow
    unfold run
    rw [if_pos ⟨hopen, hnow⟩]
  · intro s now outcome detections hopen hnow hok
    unfold run
    rw [if_neg (by push_neg; intro _; linarith)]
    dsimp only
    rw [if_pos hopen, hok]
    rfl
  · intro s now outcome hopen hnow hfailo
    unfold run
    rw [if_neg (by push_neg; intro _; linarith)]
    dsimp only
    rw [if_pos hopen]
    unfold callFails at hfailo
    cases hcs : callService outcome with
    | ok dets => rw [hcs] at hfailo; simp at hfailo
    | error e =>
      dsimp only
      constructor
      · unfold onFailure
        dsimp only
        split <;> rfl
      · rfl
  · intro s now outcome detections hclosed hok
    unfold run
    rw [if_neg (by simp [hclosed])]
    dsimp only
    rw [if_neg (by simp [hclosed]), hok]
    exact ⟨rfl, rfl, rfl⟩
  · intro s now outcome hclosed hfailo
    rw [run_of_closed_fail config s now outcome hclosed hfailo]
    unfold onFailure
    dsimp only
    split <;> rfl

/-- C4 witness: with threshold 3, three consecutive failed calls (at
times 0, 1, 2) leave the breaker open with `retryAt = 2 + 3000`. -/
theorem circuit_breaker_trips_witness :
    (runSeq ⟨3, 3000⟩ (fun i => (i : ℤ)) (fun _ => ServiceOutcome.noResponse) 3).circuitOpen
      = true ∧
    (runSeq ⟨3, 3000⟩ (fun i => (i : ℤ)) (fun _ => ServiceOutcome.noResponse) 3).circuitRetryAt
      = 2 + 3000 :=
  (circuit_breaker_trips_on_Tth_failure ⟨3, 3000⟩ (fun i => (i : ℤ))
      (fun _ => ServiceOutcome.noResponse)
      (by norm_num) (by norm_num) (fun _ => rfl)).2.1 2 (by norm_num)

/-- C6: `run` is a total function — modelling that
`ObjectDetector::run` never propagates an exception — and on any
failing outcome (no response, non-200 status, malformed JSON,
non-array body, frame-encoding failure, bad encoded dimensions) it
returns the empty list and records the failure via `onFailure`; on the
circuit-open fast path it likewise returns the empty list with the
state untouched. -/
theorem run_returns_empty_on_failure :
    (∀ (config : DetectorConfig) (s : BreakerState) (now : ℤ)
        (outcome : ServiceOutcome),
      callFails outcome = true → ¬(s.circuitOpen = true ∧ now < s.circuitRetryAt) →
      (run config s now outcome).2 = [] ∧
      (run config s now outcome).1 =
        onFailure config
          (if s.circuitOpen then
            { s with circuitOpen := false, consecutiveFailures := 0 }
          else s) now) ∧
    (∀ (config : DetectorConfig) (s : BreakerState) (now : ℤ)
        (outcome : ServiceOutcome),
      s.circuitOpen = true → now < s.circuitRetryAt →
      run config s now outcome = (s, [])) ∧
    callFails .encodeFailure = true ∧
    callFails .noResponse = true ∧
    (∀ status : ℤ, callFails (.httpStatus status) = true) ∧
    callFails .malformedJson = true ∧
    callFails .notArray = true ∧
    (∀ (encodedWidth encodedHeight : ℤ) (items : List RawDetection),
      encodedWidth ≤ 0 ∨ encodedHeight ≤ 0 →
      callFails (.ok encodedWidth encodedHeight items) = true) := by
  refine ⟨?_, ?_, rfl, rfl, fun _ => rfl, rfl, rfl, ?_⟩
  · intro config s now outcome hfailo hnotfast
    unfold run
    rw [if_neg hnotfast]
    dsimp only
    unfold callFails at hfailo
    cases hcs : callService outcome with
    | ok dets => rw [hcs] at hfailo; simp at hfailo
    | error e => exact ⟨rfl, rfl⟩
  · intro config s now outcome hopen hnow
    unfold run
    rw [if_pos ⟨hopen, hnow⟩]
  · intro encodedWidth encodedHeight items hbad
    unfold callFails callService
    dsimp only
    rw [if_pos hbad]

/-- C6 witness: a concrete failing call (no response, fresh state)
returns the empty list. -/
theorem run_returns_empty_on_failure_witness :
    (run ⟨3, 3000⟩ initialBreakerState 0 .noResponse).2 = [] :=
  ((run_returns_empty_on_failure.1 ⟨3, 3000⟩ initialBreakerState 0 .noResponse
    rfl (by simp [initialBreakerState]))).1

/-! ### Frame sampler (`device_agent.cpp`) -/

/-- `m_minFrameIntervalUs` as computed in the `DeviceAgent` constructor
(device_agent.cpp:51-54): `llround(1'000'000.0 / sampleFps)` when
`sampleFps > 0`, else 0.  `llround` agrees with `round` on positive
arguments. -/
def minFrameIntervalUs (sampleFps : ℚ) : ℤ :=
  if 0 < sampleFps then round (1000000 / sampleFps) else 0

/-- `DeviceAgent::shouldSampleFrame` (device_agent.cpp:159-175) as a
state transformer on `m_lastAcceptedTimestampUs` (0 at construction):
returns whether the frame is accepted together with the new
`m_lastAcceptedTimestampUs`.  Note that the `timestampUs ≤ 0` escape
accepts WITHOUT updating the stored timestamp. -/
def shouldSampleFrame (minIntervalUs lastAcceptedTimestampUs timestampUs : ℤ) :
    Bool × ℤ :=
  if minIntervalUs ≤ 0 then (true, timestampUs)
  else if timestampUs ≤ 0 then (true, lastAcceptedTimestampUs)
  else if 0 < lastAcceptedTimestampUs ∧
      timestampUs - lastAcceptedTimestampUs < minIntervalUs then
    (false, lastAcceptedTimestampUs)
  else (true, timestampUs)

/-- C7 counterexample.  (1) With `sampleFps = 3` the code compares
against the ROUNDED interval `333333 = llround(10⁶/3)`: a frame
333333 µs after the last accepted one is accepted even though
`333333 < 10⁶/3`, so "accepts iff … `timestampUs −
lastAcceptedTimestampUs ≥ 10⁶/sampleFps`" is false.  (2) A frame with
`timestampUs = −5` is accepted but `m_lastAcceptedTimestampUs` keeps
its old value 500000, so "on every acceptance `lastAcceptedTimestampUs`
is updated to the accepted frame's `timestampUs`" is false. -/
theorem shouldSampleFrame_claim_counterexample :
    ((shouldSampleFrame (minFrameIntervalUs 3) 1000000 1333333).1 = true ∧
      ¬((3 : ℚ) ≤ 0 ∨ (1333333 : ℤ) ≤ 0 ∨
        (1000000 / 3 : ℚ) ≤ (1333333 : ℚ) - 1000000)) ∧
    (shouldSampleFrame (minFrameIntervalUs 5) 500000 (-5) = (true, 500000) ∧
      (500000 : ℤ) ≠ -5) := by
  refine ⟨⟨?_, ?_⟩, ?_, by norm_num⟩
  · have hmin : minFrameIntervalUs 3 = 333333 := by
      unfold minFrameIntervalUs
      rw [if_pos (by norm_num)]
      norm_num [round_eq]
    rw [hmin]
    rfl
  · push_neg
    norm_num
  · have hmin : minFrameIntervalUs 5 = 200000 := by
      unfold minFrameIntervalUs
      rw [if_pos (by norm_num)]
      norm_num [round_eq]
    rw [hmin]
    rfl

/-- C7 (amended): the sampler accepts a frame iff the computed interval
`minFrameIntervalUs sampleFps = llround(10⁶/sampleFps)` is ≤ 0 (i.e.
`sampleFps ≤ 0` for the configured range), or `timestampUs ≤ 0`, or
`lastAcceptedTimestampUs` is unset (≤ 0, first frame), or
`timestampUs − lastAcceptedTimestampUs ≥ minFrameIntervalUs`; the
stored timestamp becomes the accepted frame's `timestampUs` on every
acceptance EXCEPT the `timestampUs ≤ 0` escape (taken only when the
interval is positive), where it is left unchanged; rejection leaves it
unchanged. -/
theorem shouldSampleFrame_characterization (sampleFps : ℚ) (lastAccepted ts : ℤ) :
    (shouldSampleFrame (minFrameIntervalUs sampleFps) lastAccepted ts).1
      = (decide (minFrameIntervalUs sampleFps ≤ 0) || decide (ts ≤ 0)
          || !decide (0 < lastAccepted)
          || decide (minFrameIntervalUs sampleFps ≤ ts - lastAccepted)) ∧
    (shouldSampleFrame (minFrameIntervalUs sampleFps) lastAccepted ts).2
      = (if minFrameIntervalUs sampleFps ≤ 0 then ts
         else if ts ≤ 0 then lastAccepted
         else if (shouldSampleFrame (minFrameIntervalUs sampleFps) lastAccepted ts).1
           then ts
           else lastAccepted) := by
  unfold shouldSampleFrame
  split_ifs with h1 h2 h3 <;> simp_all
  all_goals omega

/-! ### Bounded drop-oldest frame queue (`device_agent.cpp`) -/

/-- `FrameJob` (device_agent.h): timestamp plus the BGR matrix,
abstracted to an opaque handle. -/
structure FrameJob where
  timestampUs : ℤ
  bgrFrame : ℕ
  deriving DecidableEq, Repr

/-- `DeviceAgent::enqueueFrameJob` (device_agent.cpp:255-266): when the
queue already holds `max 1 maxQueueSize` jobs, `pop_front` the oldest,
then `push_back` the new job.  The front of the list is the front of
the deque (oldest). -/
def enqueueFrameJob (maxQueueSize : ℕ) (queue : List FrameJob) (job : FrameJob) :
    List FrameJob :=
  (if max 1 maxQueueSize ≤ queue.length then queue.drop 1 else queue) ++ [job]

/-- The worker loop's drain order (device_agent.cpp:118-136): it
repeatedly takes `m_frameQueue.front()` and pops it, so a queue is
processed front to back. -/
def drainQueue : List FrameJob → List FrameJob
  | [] => []
  | job :: rest => job :: drainQueue rest

lemma drainQueue_eq (queue : List FrameJob) : drainQueue queue = queue := by
  induction queue with
  | nil => rfl
  | cons job rest ih => unfold drainQueue; rw [ih]

lemma enqueue_foldl (maxQueueSize : ℕ) (jobs : List FrameJob) :
    List.foldl (enqueueFrameJob maxQueueSize) [] jobs
      = jobs.drop (jobs.length - max 1 maxQueueSize) := by
  induction jobs using List.reverseRecOn with
  | nil => simp
  | append_singleton l a ih =>
    rw [List.foldl_append, List.foldl_cons, List.foldl_nil, ih]
    unfold enqueueFrameJob
    by_cases hlen : max 1 maxQueueSize ≤ l.length
    · have hlength : (l.drop (l.length - max 1 maxQueueSize)).length
          = max 1 maxQueueSize := by
        rw [List.length_drop]
        omega
      rw [if_pos (by rw [hlength])]
      rw [List.drop_drop]
      have harith : l.length + 1 - max 1 maxQueueSize
          = 1 + (l.length - max 1 maxQueueSize) := by omega
      rw [List.length_append, List.length_singleton, harith]
      rw [List.drop_append_of_le_length (by omega),
        Nat.add_comm 1 (l.length - max 1 maxQueueSize)]
    · have hlength : (l.drop (l.length - max 1 maxQueueSize)).length
          = l.length := by
        rw [List.length_drop]
        omega
      rw [if_neg (by rw [hlength]; exact hlen)]
      have h0 : l.length - max 1 maxQueueSize = 0 := by omega
      have h0' : l.length + 1 - max 1 maxQueueSize = 0 := by omega
      rw [List.length_append, List.length_singleton, h0, h0', List.drop_zero,
        List.drop_zero]

/-- C5: enqueuing `N > K` jobs (`K = max 1 maxQueueSize`) into an
initially empty queue with no intervening dequeues leaves exactly the
last `K` jobs in arrival order — the oldest is dropped before each
push on a full queue — and the worker, draining front to back,
processes exactly those last `K` jobs in that order. -/
theorem queue_keeps_last_K_jobs (maxQueueSize : ℕ) (jobs : List FrameJob)
    (h : max 1 maxQueueSize < jobs.length) :
    List.foldl (enqueueFrameJob maxQueueSize) [] jobs
      = jobs.drop (jobs.length - max 1 maxQueueSize) ∧
    (List.foldl (enqueueFrameJob maxQueueSize) [] jobs).length = max 1 maxQueueSize ∧
    drainQueue (List.foldl (enqueueFrameJob maxQueueSize) [] jobs)
      = jobs.drop (jobs.length - max 1 maxQueueSize) := by
  refine ⟨enqueue_foldl maxQueueSize jobs, ?_, ?_⟩
  · rw [enqueue_foldl maxQueueSize jobs, List.length_drop]
    omega
  · rw [drainQueue_eq]
    exact enqueue_foldl maxQueueSize jobs

/-- C5 witness: capacity 2, five enqueued jobs with timestamps 1..5 —
the queue retains (and the worker drains) jobs 4 and 5 in order. -/
theorem queue_keeps_last_K_jobs_witness :
    List.foldl (enqueueFrameJob 2) []
      [⟨1, 0⟩, ⟨2, 0⟩, ⟨3, 0⟩, ⟨4, 0⟩, ⟨5, 0⟩] = [⟨4, 0⟩, ⟨5, 0⟩] := by
  have h := (queue_keeps_last_K_jobs 2
    [⟨1, 0⟩, ⟨2, 0⟩, ⟨3, 0⟩, ⟨4, 0⟩, ⟨5, 0⟩] (by decide)).1
  simpa using h

/-! ### Track Registry (`device_agent.cpp`)

`std::map<int64_t, V>` is rendered as an association list; lookup and
`map[key] = value` follow. -/

/-- `map.find(key)` on the association-list rendering. -/
def assocFind {β : Type} (key : ℤ) : List (ℤ × β) → Option β
  | [] => none
  | kv :: rest => if kv.1 = key then some kv.2 else assocFind key rest

/-- `map[key] = value`: replace the entry in place, or append. -/
def assocSet {β : Type} (key : ℤ) (value : β) : List (ℤ × β) → List (ℤ × β)
  | [] => [(key, value)]
  | kv :: rest =>
    if kv.1 = key then (key, value) :: rest else kv :: assocSet key value rest

/-- `SyntheticTrack` (device_agent.h). -/
structure SyntheticTrack where
  bbox : Rect
  lastSeenUs : ℤ
  deriving DecidableEq, Repr

/-- The track-registry fields of `DeviceAgent` (device_agent.h):
`m_nextSyntheticTrackId` (starts at −1), `m_syntheticTracks`,
`m_trackUuidByKey`, `m_trackLastSeenUs`, plus a fresh-UUID counter
abstracting `UuidHelper::randomUuid` (fresh values, never 0). -/
structure TrackState where
  nextSyntheticTrackId : ℤ
  syntheticTracks : List (ℤ × SyntheticTrack)
  trackUuidByKey : List (ℤ × ℕ)
  trackLastSeenUs : List (ℤ × ℤ)
  nextUuid : ℕ
  deriving DecidableEq, Repr

/-- The registry state of a freshly constructed `DeviceAgent`. -/
def initialTrackState : TrackState :=
  { nextSyntheticTrackId := -1, syntheticTracks := [], trackUuidByKey := [],
    trackLastSeenUs := [], nextUuid := 1 }

/-- `DeviceAgent::getOrCreateUuid` (device_agent.cpp:320-329). -/
def getOrCreateUuid (s : TrackState) (key : ℤ) : ℕ × TrackState :=
  match assocFind key s.trackUuidByKey with
  | some uuid => (uuid, s)
  | none =>
    (s.nextUuid,
      { s with
        trackUuidByKey := assocSet key s.nextUuid s.trackUuidByKey
        nextUuid := s.nextUuid + 1 })

/-- The best-overlap scan of `DeviceAgent::resolveSyntheticTrackId`
(device_agent.cpp:292-307): skip tracks older than
`syntheticTrackTtlUs`, keep the track whose IoU with the new box
strictly exceeds both the 0.3 threshold and the best so far.
(`std::map` iterates in ascending key order; the association list is
iterated in its own order, which matters only for equal-IoU ties —
a deterministic tie-break either way.) -/
def bestSyntheticMatch (syntheticTrackTtlUs : ℤ) (tracks : List (ℤ × SyntheticTrack))
    (bbox : Rect) (timestampUs : ℤ) : ℤ × ℚ :=
  tracks.foldl
    (fun best kv =>
      if syntheticTrackTtlUs < timestampUs - kv.2.lastSeenUs then best
      else
        let overlap := iou kv.2.bbox bbox
        if 3/10 < overlap ∧ best.2 < overlap then (kv.1, overlap) else best)
    (0, 0)

/-- `DeviceAgent::resolveSyntheticTrackId` (device_agent.cpp:290-318):
reuse the best matching live synthetic track, else allocate a fresh
negative id (`m_nextSyntheticTrackId--`); either way upsert the
synthetic track with the new box and timestamp. -/
def resolveSyntheticTrackId (syntheticTrackTtlUs : ℤ) (s : TrackState)
    (bbox : Rect) (timestampUs : ℤ) : ℤ × TrackState :=
  let best := bestSyntheticMatch syntheticTrackTtlUs s.syntheticTracks bbox timestampUs
  if best.1 = 0 then
    (s.nextSyntheticTrackId,
      { s with
        nextSyntheticTrackId := s.nextSyntheticTrackId - 1
        syntheticTracks :=
          assocSet s.nextSyntheticTrackId ⟨bbox, timestampUs⟩ s.syntheticTracks })
  else
    (best.1,
      { s with
        syntheticTracks := assocSet best.1 ⟨bbox, timestampUs⟩ s.syntheticTracks })

/-- Body of the per-detection loop of `DeviceAgent::resolveTrackIds`
(device_agent.cpp:273-287): key from `aiTrackId` or synthetic
association, UUID from the key map, then
`m_trackLastSeenUs[key] = timestampUs`. -/
def resolveOneDetection (syntheticTrackTtlUs timestampUs : ℤ)
    (acc : TrackState × DetectionList) (detection : Detection) :
    TrackState × DetectionList :=
  let resolved :=
    match detection.aiTrackId with
    | some aiTrackId => (aiTrackId, acc.1)
    | none => resolveSyntheticTrackId syntheticTrackTtlUs acc.1 detection.bbox timestampUs
  let found := getOrCreateUuid resolved.2 resolved.1
  let s3 := { found.2 with
    trackLastSeenUs := assocSet resolved.1 timestampUs found.2.trackLastSeenUs }
  (s3, acc.2 ++ [{ detection with trackId := found.1 }])

/-- `DeviceAgent::resolveTrackIds` (device_agent.cpp:268-288). -/
def resolveTrackIds (syntheticTrackTtlUs : ℤ) (s : TrackState)
    (detections : DetectionList) (timestampUs : ℤ) : TrackState × DetectionList :=
  detections.foldl (resolveOneDetection syntheticTrackTtlUs timestampUs) (s, [])

/-- `DeviceAgent::cleanupTrackState` (device_agent.cpp:331-353): erase
every synthetic track with `t − lastSeen > syntheticTrackTtlUs`; erase
every `trackLastSeenUs` entry with `t − lastSeen > trackMapTtlUs`,
erasing the `trackUuidByKey` entry of the same key alongside. -/
def cleanupTrackState (syntheticTrackTtlUs trackMapTtlUs : ℤ) (s : TrackState)
    (timestampUs : ℤ) : TrackState :=
  { s with
    syntheticTracks := s.syntheticTracks.filter
      (fun kv => !decide (syntheticTrackTtlUs < timestampUs - kv.2.lastSeenUs))
    trackUuidByKey := s.trackUuidByKey.filter
      (fun kv =>
        match assocFind kv.1 s.trackLastSeenUs with
        | some lastSeen => !decide (trackMapTtlUs < timestampUs - lastSeen)
        | none => true)
    trackLastSeenUs := s.trackLastSeenUs.filter
      (fun kv => !decide (trackMapTtlUs < timestampUs - kv.2)) }

/-! ### Association-list map lemmas -/

lemma bool_eq_of_iff {a b : Bool} (h : a = true ↔ b = true) : a = b := by
  cases a <;> cases b <;> simp_all

lemma assocFind_mem {β : Type} {key : ℤ} {v : β} :
    ∀ {l : List (ℤ × β)}, assocFind key l = some v → (key, v) ∈ l := by
  intro l
  induction l with
  | nil => intro h; simp [assocFind] at h
  | cons kv rest ih =>
    intro h
    unfold assocFind at h
    by_cases hk : kv.1 = key
    · rw [if_pos hk] at h
      obtain rfl : kv.2 = v := Option.some_inj.mp h
      exact List.mem_cons.mpr (Or.inl (by rw [← hk]))
    · rw [if_neg hk] at h
      exact List.mem_cons_of_mem _ (ih h)

lemma assocFind_eq_some_of_mem {β : Type} {key : ℤ} {v : β} :
    ∀ {l : List (ℤ × β)}, (l.map Prod.fst).Nodup → (key, v) ∈ l →
      assocFind key l = some v := by
  intro l
  induction l with
  | nil => intro _ h; simp at h
  | cons kv rest ih =>
    intro hnodup h
    rw [List.map_cons, List.nodup_cons] at hnodup
    obtain ⟨hk1, hk2⟩ := hnodup
    unfold assocFind
    rcases List.mem_cons.mp h with heq | hmem
    · rw [← heq]
      simp
    · by_cases hkk : kv.1 = key
      · exact absurd (List.mem_map.mpr ⟨(key, v), hmem, hkk.symm⟩) hk1
      · rw [if_neg hkk]
        exact ih hk2 hmem

lemma assocFind_isSome_iff {β : Type} (key : ℤ) :
    ∀ l : List (ℤ × β),
      (assocFind key l).isSome = true ↔ key ∈ l.map Prod.fst := by
  intro l
  induction l with
  | nil => simp [assocFind]
  | cons kv rest ih =>
    unfold assocFind
    by_cases hk : kv.1 = key
    · simp [hk]
    · rw [if_neg hk, List.map_cons, List.mem_cons]
      rw [ih]
      constructor
      · exact Or.inr
      · intro h
        rcases h with h | h
        · exact absurd h.symm hk
        · exact h

lemma assocFind_assocSet {β : Type} (key key' : ℤ) (v : β) :
    ∀ l : List (ℤ × β),
      assocFind key' (assocSet key v l)
        = if key' = key then some v else assocFind key' l := by
  intro l
  induction l with
  | nil =>
    by_cases h : key' = key
    · subst h
      simp [assocSet, assocFind]
    · simp [assocSet, assocFind, h, Ne.symm h]
  | cons kv rest ih =>
    unfold assocSet
    by_cases h1 : kv.1 = key
    · rw [if_pos h1]
      by_cases h2 : key' = key
      · subst h2
        simp [assocFind]
      · simp [assocFind, h1, h2, Ne.symm h2]
    · rw [if_neg h1]
      by_cases h2 : key' = key
      · subst h2
        simp [assocFind, h1, ih]
      · simp [assocFind, h2, ih]

lemma assocSet_map_fst {β : Type} (key : ℤ) (v : β) :
    ∀ l : List (ℤ × β),
      (assocSet key v l).map Prod.fst
        = if key ∈ l.map Prod.fst then l.map Prod.fst
          else l.map Prod.fst ++ [key] := by
  intro l
  induction l with
  | nil => simp [assocSet]
  | cons kv rest ih =>
    unfold assocSet
    by_cases h : kv.1 = key
    · rw [if_pos h]
      simp [h]
    · rw [if_neg h, List.map_cons, ih, List.map_cons]
      by_cases hmem : key ∈ rest.map Prod.fst
      · rw [if_pos hmem, if_pos (List.mem_cons.mpr (Or.inr hmem))]
      · rw [if_neg hmem,
          if_neg (by
            rw [List.mem_cons]
            push_neg
            exact ⟨fun hh => h hh.symm, hmem⟩)]
        simp

lemma assocSet_nodup_keys {β : Type} (key : ℤ) (v : β) (l : List (ℤ × β))
    (h : (l.map Prod.fst).Nodup) : ((assocSet key v l).map Prod.fst).Nodup := by
  rw [assocSet_map_fst]
  split_ifs with hmem
  · exact h
  · rw [List.nodup_append]
    exact ⟨h, List.nodup_singleton key, by simp [hmem]⟩

/-! ### Key-map alignment (claim C10) -/

/-- The registry's two key maps are well-formed and carry exactly the
same keys: each key mapped to a UUID also carries a last-seen
timestamp, and vice versa. -/
def trackMapsAligned (s : TrackState) : Prop :=
  (s.trackUuidByKey.map Prod.fst).Nodup ∧
  (s.trackLastSeenUs.map Prod.fst).Nodup ∧
  ∀ key : ℤ, (assocFind key s.trackUuidByKey).isSome
    = (assocFind key s.trackLastSeenUs).isSome

lemma resolveOneDetection_aligned (syntheticTrackTtlUs timestampUs : ℤ)
    (acc : TrackState × DetectionList) (detection : Detection)
    (h : trackMapsAligned acc.1) :
    trackMapsAligned (resolveOneDetection syntheticTrackTtlUs timestampUs acc detection).1 := by
  obtain ⟨hnu, hnl, hal⟩ := h
  unfold resolveOneDetection
  dsimp only
  have hmaps :
      (match detection.aiTrackId with
        | some aiTrackId => (aiTrackId, acc.1)
        | none => resolveSyntheticTrackId syntheticTrackTtlUs acc.1 detection.bbox
            timestampUs).2.trackUuidByKey = acc.1.trackUuidByKey ∧
      (match detection.aiTrackId with
        | some aiTrackId => (aiTrackId, acc.1)
        | none => resolveSyntheticTrackId syntheticTrackTtlUs acc.1 detection.bbox
            timestampUs).2.trackLastSeenUs = acc.1.trackLastSeenUs := by
    cases detection.aiTrackId with
    | none =>
      dsimp only
      unfold resolveSyntheticTrackId
      dsimp only
      split <;> exact ⟨rfl, rfl⟩
    | some aiTrackId => exact ⟨rfl, rfl⟩
  set resolved :=
    (match detection.aiTrackId with
      | some aiTrackId => (aiTrackId, acc.1)
      | none => resolveSyntheticTrackId syntheticTrackTtlUs acc.1 detection.bbox
          timestampUs) with hresolved
  obtain ⟨hru, hrl⟩ := hmaps
  unfold getOrCreateUuid
  cases hf : assocFind resolved.1 resolved.2.trackUuidByKey with
  | some uuid =>
    dsimp only
    refine ⟨by rw [hru]; exact hnu, assocSet_nodup_keys _ _ _ (by rw [hrl]; exact hnl), ?_⟩
    intro key
    rw [assocFind_assocSet]
    by_cases hk : key = resolved.1
    · rw [if_pos hk, hru]
      rw [hru] at hf
      rw [hk, hf]
      rfl
    · rw [if_neg hk, hru, hrl]
      exact hal key
  | none =>
    dsimp only
    refine ⟨assocSet_nodup_keys _ _ _ (by rw [hru]; exact hnu),
      assocSet_nodup_keys _ _ _ (by rw [hrl]; exact hnl), ?_⟩
    intro key
    rw [assocFind_assocSet, assocFind_assocSet]
    by_cases hk : key = resolved.1
    · rw [if_pos hk, if_pos hk]
      rfl
    · rw [if_neg hk, if_neg hk, hru, hrl]
      exact hal key

lemma resolveTrackIds_foldl_aligned (syntheticTrackTtlUs timestampUs : ℤ)
    (detections : DetectionList) :
    ∀ acc : TrackState × DetectionList, trackMapsAligned acc.1 →
      trackMapsAligned
        (detections.foldl (resolveOneDetection syntheticTrackTtlUs timestampUs) acc).1 := by
  induction detections with
  | nil => intro acc h; exact h
  | cons d rest ih =>
    intro acc h
    rw [List.foldl_cons]
    exact ih _ (resolveOneDetection_aligned syntheticTrackTtlUs timestampUs acc d h)

lemma cleanup_aligned (syntheticTrackTtlUs trackMapTtlUs timestampUs : ℤ)
    (s : TrackState) (h : trackMapsAligned s) :
    trackMapsAligned (cleanupTrackState syntheticTrackTtlUs trackMapTtlUs s timestampUs) := by
  obtain ⟨hnu, hnl, hal⟩ := h
  unfold cleanupTrackState
  refine ⟨List.Nodup.sublist (List.Sublist.map _ (List.filter_sublist _)) hnu,
    List.Nodup.sublist (List.Sublist.map _ (List.filter_sublist _)) hnl, ?_⟩
  intro key
  apply bool_eq_of_iff
  rw [assocFind_isSome_iff, assocFind_isSome_iff]
  constructor
  · intro hmem
    obtain ⟨kv, hkv, hkey⟩ := List.mem_map.mp hmem
    obtain ⟨hkvmem, hkvpred⟩ := List.mem_filter.mp hkv
    have hkeyu : key ∈ s.trackUuidByKey.map Prod.fst :=
      List.mem_map.mpr ⟨kv, hkvmem, hkey⟩
    have hkeyl : (assocFind key s.trackLastSeenUs).isSome = true := by
      rw [← hal key]
      rw [assocFind_isSome_iff]
      exact hkeyu
    obtain ⟨lastSeen, hls⟩ := Option.isSome_iff_exists.mp hkeyl
    have hfresh : ¬(trackMapTtlUs < timestampUs - lastSeen) := by
      rw [← hkey] at hls
      rw [hls] at hkvpred
      simpa using hkvpred
    refine List.mem_map.mpr ⟨(key, lastSeen), List.mem_filter.mpr ⟨assocFind_mem hls, ?_⟩, rfl⟩
    simpa using hfresh
  · intro hmem
    obtain ⟨kv, hkv, hkey⟩ := List.mem_map.mp hmem
    obtain ⟨hkvmem, hkvpred⟩ := List.mem_filter.mp hkv
    have hkeyl : (assocFind key s.trackLastSeenUs).isSome = true := by
      rw [assocFind_isSome_iff]
      exact List.mem_map.mpr ⟨kv, hkvmem, hkey⟩
    have hkeyu : key ∈ s.trackUuidByKey.map Prod.fst := by
      rw [← assocFind_isSome_iff, hal key]
      exact hkeyl
    obtain ⟨kv', hkv'mem, hkey'⟩ := List.mem_map.mp hkeyu
    have hls : assocFind key s.trackLastSeenUs = some kv.2 := by
      have : kv = (key, kv.2) := by rw [← hkey]
      exact assocFind_eq_some_of_mem hnl (by rw [← this]; exact hkvmem)
    refine List.mem_map.mpr ⟨kv', List.mem_filter.mpr ⟨hkv'mem, ?_⟩, hkey'⟩
    rw [hkey', hls]
    simpa using hkvpred

/-- C10: after construction, after every `resolveTrackIds` call and
after every `cleanupTrackState` call, the key maps `m_trackUuidByKey`
and `m_trackLastSeenUs` are aligned — they hold exactly the same key
set (and at most one entry per key) — so every UUID mapping carries an
expiry timestamp. -/
theorem track_maps_keys_aligned :
    trackMapsAligned initialTrackState ∧
    (∀ (syntheticTrackTtlUs : ℤ) (s : TrackState) (detections : DetectionList)
        (timestampUs : ℤ), trackMapsAligned s →
      trackMapsAligned (resolveTrackIds syntheticTrackTtlUs s detections timestampUs).1) ∧
    (∀ (syntheticTrackTtlUs trackMapTtlUs : ℤ) (s : TrackState) (timestampUs : ℤ),
      trackMapsAligned s →
      trackMapsAligned (cleanupTrackState syntheticTrackTtlUs trackMapTtlUs s timestampUs)) ∧
    (∀ s : TrackState, trackMapsAligned s →
      ∀ key : ℤ,
        key ∈ s.trackUuidByKey.map Prod.fst ↔ key ∈ s.trackLastSeenUs.map Prod.fst) := by
  refine ⟨⟨List.nodup_nil, List.nodup_nil, fun _ => rfl⟩, ?_, ?_, ?_⟩
  · intro synTtl s detections timestampUs h
    exact resolveTrackIds_foldl_aligned synTtl timestampUs detections (s, []) h
  · intro synTtl mapTtl s timestampUs h
    exact cleanup_aligned synTtl mapTtl timestampUs s h
  · intro s h key
    obtain ⟨_, _, hal⟩ := h
    rw [← assocFind_isSome_iff, ← assocFind_isSome_iff, hal key]

/-- C10 witness: resolving one concrete detection from the fresh state
yields aligned key maps. -/
theorem track_maps_keys_aligned_witness :
    trackMapsAligned
      (resolveTrackIds 2000000 initialTrackState
        [⟨⟨0, 0, 1/2, 1/2⟩, "person", 9/10, false, none, 0⟩] 100).1 :=
  track_maps_keys_aligned.2.1 2000000 initialTrackState
    [⟨⟨0, 0, 1/2, 1/2⟩, "person", 9/10, false, none, 0⟩] 100
    ⟨List.nodup_nil, List.nodup_nil, fun _ => rfl⟩

/-- C8 counterexample: with the default TTLs, one tracked key last
seen at 0 and the next cleanup running at `t = trackMapTtlUs = 6·10⁷`
— so no frame has updated the entry for a gap of AT LEAST
`trackMapTtlUs`, as the claim reads — both key maps keep their entry,
because `cleanupTrackState` removes an entry only when the age
STRICTLY exceeds the TTL. -/
theorem cleanup_boundary_counterexample :
    (cleanupTrackState 2000000 60000000
      { nextSyntheticTrackId := -1, syntheticTracks := [],
        trackUuidByKey := [(1, 1)], trackLastSeenUs := [(1, 0)], nextUuid := 2 }
      60000000).trackLastSeenUs = [(1, 0)] ∧
    (cleanupTrackState 2000000 60000000
      { nextSyntheticTrackId := -1, syntheticTracks := [],
        trackUuidByKey := [(1, 1)], trackLastSeenUs := [(1, 0)], nextUuid := 2 }
      60000000).trackUuidByKey = [(1, 1)] ∧
    (60000000 : ℤ) - 0 ≥ 60000000 := by
  refine ⟨by decide, by decide, by norm_num⟩

/-- C8 (amended): `cleanupTrackState` at frame timestamp `t` keeps a
synthetic track iff its age is at most `syntheticTrackTtlUs` and a
last-seen entry iff its age is at most `trackMapTtlUs` (removal is
STRICT: an entry of age exactly the TTL survives); every surviving
UUID mapping has a last-seen entry of age at most `trackMapTtlUs`;
consequently a cleanup at a time `t` by which every recorded last-seen
timestamp is STRICTLY older than the respective TTL — and with every
UUID key carrying a last-seen entry, which C10 guarantees — leaves all
three maps empty. -/
theorem cleanup_removes_stale_entries (synTtl mapTtl t : ℤ) (s : TrackState) :
    (∀ kv ∈ (cleanupTrackState synTtl mapTtl s t).syntheticTracks,
      kv ∈ s.syntheticTracks ∧ t - kv.2.lastSeenUs ≤ synTtl) ∧
    (∀ kv ∈ s.syntheticTracks, t - kv.2.lastSeenUs ≤ synTtl →
      kv ∈ (cleanupTrackState synTtl mapTtl s t).syntheticTracks) ∧
    (∀ kv ∈ (cleanupTrackState synTtl mapTtl s t).trackLastSeenUs,
      kv ∈ s.trackLastSeenUs ∧ t - kv.2 ≤ mapTtl) ∧
    (∀ kv ∈ s.trackLastSeenUs, t - kv.2 ≤ mapTtl →
      kv ∈ (cleanupTrackState synTtl mapTtl s t).trackLastSeenUs) ∧
    (∀ kv ∈ (cleanupTrackState synTtl mapTtl s t).trackUuidByKey,
      kv ∈ s.trackUuidByKey ∧
      ∀ lastSeen, assocFind kv.1 s.trackLastSeenUs = some lastSeen →
        t - lastSeen ≤ mapTtl) ∧
    ((∀ kv ∈ s.syntheticTracks, synTtl < t - kv.2.lastSeenUs) →
     (∀ kv ∈ s.trackLastSeenUs, mapTtl < t - kv.2) →
     (∀ key ∈ s.trackUuidByKey.map Prod.fst,
        (assocFind key s.trackLastSeenUs).isSome = true) →
     (cleanupTrackState synTtl mapTtl s t).syntheticTracks = [] ∧
     (cleanupTrackState synTtl mapTtl s t).trackUuidByKey = [] ∧
     (cleanupTrackState synTtl mapTtl s t).trackLastSeenUs = []) := by
  refine ⟨?_, ?_, ?_, ?_, ?_, ?_⟩
  · intro kv hkv
    obtain ⟨hmem, hpred⟩ := List.mem_filter.mp hkv
    exact ⟨hmem, by simpa using hpred⟩
  · intro kv hkv hfresh
    exact List.mem_filter.mpr ⟨hkv, by simpa using not_lt.mpr hfresh⟩
  · intro kv hkv
    obtain ⟨hmem, hpred⟩ := List.mem_filter.mp hkv
    exact ⟨hmem, by simpa using hpred⟩
  · intro kv hkv hfresh
    exact List.mem_filter.mpr ⟨hkv, by simpa using not_lt.mpr hfresh⟩
  · intro kv hkv
    obtain ⟨hmem, hpred⟩ := List.mem_filter.mp hkv
    refine ⟨hmem, ?_⟩
    intro lastSeen hls
    rw [hls] at hpred
    simpa using hpred
  · intro hsyn hlast huuid
    unfold cleanupTrackState
    dsimp only
    refine ⟨?_, ?_, ?_⟩
    · rw [List.filter_eq_nil_iff]
      intro kv hkv
      simp
      linarith [hsyn kv hkv]
    · rw [List.filter_eq_nil_iff]
      intro kv hkv
      have hsome := huuid kv.1 (List.mem_map.mpr ⟨kv, hkv, rfl⟩)
      obtain ⟨lastSeen, hls⟩ := Option.isSome_iff_exists.mp hsome
      rw [hls]
      have hstale := hlast (kv.1, lastSeen) (assocFind_mem hls)
      simp
      linarith [hstale]
    · rw [List.filter_eq_nil_iff]
      intro kv hkv
      simp
      linarith [hlast kv hkv]

/-- C8 witness: a state whose only entries are strictly older than the
TTLs is emptied by a cleanup. -/
theorem cleanup_removes_stale_entries_witness :
    (cleanupTrackState 2000000 60000000
      { nextSyntheticTrackId := -2,
        syntheticTracks := [(-1, ⟨⟨0, 0, 1/2, 1/2⟩, 0⟩)],
        trackUuidByKey := [(5, 1)], trackLastSeenUs := [(5, 0)], nextUuid := 2 }
      60000001).syntheticTracks = [] ∧
    (cleanupTrackState 2000000 60000000
      { nextSyntheticTrackId := -2,
        syntheticTracks := [(-1, ⟨⟨0, 0, 1/2, 1/2⟩, 0⟩)],
        trackUuidByKey := [(5, 1)], trackLastSeenUs := [(5, 0)], nextUuid := 2 }
      60000001).trackUuidByKey = [] ∧
    (cleanupTrackState 2000000 60000000
      { nextSyntheticTrackId := -2,
        syntheticTracks := [(-1, ⟨⟨0, 0, 1/2, 1/2⟩, 0⟩)],
        trackUuidByKey := [(5, 1)], trackLastSeenUs := [(5, 0)], nextUuid := 2 }
      60000001).trackLastSeenUs = [] :=
  (cleanup_removes_stale_entries 2000000 60000000 60000001
      { nextSyntheticTrackId := -2,
        syntheticTracks := [(-1, ⟨⟨0, 0, 1/2, 1/2⟩, 0⟩)],
        trackUuidByKey := [(5, 1)], trackLastSeenUs := [(5, 0)], nextUuid := 2 }).2.2.2.2.2
    (by decide) (by decide) (by decide)

/-! ### Fall State Machine (`device_agent.cpp`) -/

/-- The two fall event flavours: START (`setIsActive(true)`, caption
"Fall detected STARTED") and FINISH (`setIsActive(false)`, caption
"Fall detected FINISHED"). -/
inductive FallKind where
  | start
  | finish
  deriving DecidableEq, Repr

/-- One fall `EventMetadataPacket` as produced by
`DeviceAgent::makeFallEventPackets` (device_agent.cpp:435-445,
462-472): type id, caption, `isActive`, the track UUID named in the
description, and the packet timestamp. -/
structure FallEvent where
  trackId : ℕ
  kind : FallKind
  typeId : String
  caption : String
  isActive : Bool
  timestampUs : ℤ
  deriving DecidableEq, Repr

/-- The START packet (device_agent.cpp:435-445). -/
def mkStartEvent (trackId : ℕ) (timestampUs : ℤ) : FallEvent :=
  { trackId := trackId, kind := .start, typeId := kFallEventType,
    caption := "Fall detected STARTED", isActive := true, timestampUs := timestampUs }

/-- The FINISH packet (device_agent.cpp:462-472). -/
def mkFinishEvent (trackId : ℕ) (timestampUs : ℤ) : FallEvent :=
  { trackId := trackId, kind := .finish, typeId := kFallEventType,
    caption := "Fall detected FINISHED", isActive := false, timestampUs := timestampUs }

/-- `m_activeFallTracks` (`std::map<Uuid, FallTrackState>`,
device_agent.h), rendered as its key set plus the per-key `lastSeenUs`
value (only ever read for present keys). -/
structure FallState where
  activeKeys : Finset ℕ
  lastSeenUs : ℕ → ℤ

/-- `m_activeFallTracks` of a freshly constructed `DeviceAgent`. -/
def initialFallState : FallState := ⟨∅, fun _ => 0⟩

/-- `seenTracks` (device_agent.cpp:416-424). -/
def seenTracks (detections : DetectionList) : Finset ℕ :=
  (detections.map Detection.trackId).toFinset

/-- `fallingTracks` (device_agent.cpp:416-424). -/
def fallingTracks (detections : DetectionList) : Finset ℕ :=
  ((detections.filter (fun d => d.fallDetected)).map Detection.trackId).toFinset

/-- `DeviceAgent::makeFallEventPackets` (device_agent.cpp:411-478).
START phase: every falling track absent from `m_activeFallTracks` is
inserted (with `lastSeenUs = timestampUs`) and gets a START packet;
already-active falling tracks only refresh `lastSeenUs`.  FINISH
phase: every active track not falling this frame that either was seen
this frame or has been missing for at least `fallFinishGraceUs` gets a
FINISH packet and is erased.  `std::set`/`std::map` iterate in
ascending key order, hence the sorts. -/
def makeFallEventPackets (fallFinishGraceUs : ℤ) (s : FallState)
    (detections : DetectionList) (timestampUs : ℤ) :
    FallState × List FallEvent :=
  let seen := seenTracks detections
  let falling := fallingTracks detections
  let startEvents :=
    ((falling \ s.activeKeys).sort (· ≤ ·)).map (fun u => mkStartEvent u timestampUs)
  let activeKeys1 := s.activeKeys ∪ falling
  let lastSeen1 : ℕ → ℤ :=
    fun u => if u ∈ falling then timestampUs else s.lastSeenUs u
  let finishSet := activeKeys1.filter (fun u =>
    u ∉ falling ∧ (u ∈ seen ∨ fallFinishGraceUs ≤ timestampUs - lastSeen1 u))
  let finishEvents :=
    (finishSet.sort (· ≤ ·)).map (fun u => mkFinishEvent u timestampUs)
  (⟨activeKeys1 \ finishSet, lastSeen1⟩, startEvents ++ finishEvents)

/-- The fall machine driven over a sequence of frames (each a resolved
detection list with its timestamp), concatenating the emitted
packets — what one worker does across successive `processFrameJob`
calls. -/
def fallRun (fallFinishGraceUs : ℤ) (s : FallState) :
    List (DetectionList × ℤ) → FallState × List FallEvent
  | [] => (s, [])
  | frame :: rest =>
    let step := makeFallEventPackets fallFinishGraceUs s frame.1 frame.2
    let next := fallRun fallFinishGraceUs step.1 rest
    (next.1, step.2 ++ next.2)

/-- The fall events concerning one track UUID, in emission order. -/
def fallEventsFor (u : ℕ) (events : List FallEvent) : List FallEvent :=
  events.filter (fun e => decide (e.trackId = u))

/-- The event kinds concerning one track UUID, in emission order. -/
def fallKindsFor (u : ℕ) (events : List FallEvent) : List FallKind :=
  (fallEventsFor u events).map FallEvent.kind

/-- The words of the regular language `(START FINISH)*`. -/
inductive SFClosed : List FallKind → Prop
  | nil : SFClosed []
  | cons (l : List FallKind) :
      SFClosed l → SFClosed (FallKind.start :: FallKind.finish :: l)

lemma SFClosed_append {l : List FallKind} (h : SFClosed l) :
    SFClosed (l ++ [FallKind.start, FallKind.finish]) := by
  induction h with
  | nil => exact SFClosed.cons [] SFClosed.nil
  | cons l hl ih => simpa using SFClosed.cons _ ih

lemma filter_map_events (u : ℕ) (ts : ℤ) (mk : ℕ → ℤ → FallEvent)
    (hmk : ∀ v ts, (mk v ts).trackId = v) :
    ∀ ids : List ℕ, ids.Nodup →
      (ids.map (fun v => mk v ts)).filter (fun e => decide (e.trackId = u))
        = if u ∈ ids then [mk u ts] else [] := by
  intro ids
  induction ids with
  | nil => intro _; simp
  | cons v rest ih =>
    intro hnodup
    rw [List.nodup_cons] at hnodup
    obtain ⟨hv, hrest⟩ := hnodup
    rw [List.map_cons, List.filter_cons, ih hrest]
    by_cases hvu : v = u
    · subst hvu
      rw [if_pos (by simp [hmk]), if_neg hv, if_pos (List.mem_cons_self v rest)]
    · rw [if_neg (by simp [hmk, hvu])]
      by_cases hmem : u ∈ rest
      · rw [if_pos hmem, if_pos (List.mem_cons.mpr (Or.inr hmem))]
      · rw [if_neg hmem,
          if_neg (by rw [List.mem_cons]; push_neg; exact ⟨fun hh => hvu hh.symm, hmem⟩)]

/-- Per-track projection of one `makeFallEventPackets` step: at most
one event per track per frame — a START exactly when the track is
falling and was not active, a FINISH exactly when it was active, is
not falling, and was either seen this frame or timed out. -/
lemma fallStep_filter (grace : ℤ) (s : FallState) (dets : DetectionList) (ts : ℤ)
    (u : ℕ) :
    fallEventsFor u (makeFallEventPackets grace s dets ts).2
      = if u ∈ fallingTracks dets ∧ u ∉ s.activeKeys then [mkStartEvent u ts]
        else if u ∈ s.activeKeys ∧ u ∉ fallingTracks dets ∧
            (u ∈ seenTracks dets ∨ grace ≤ ts - s.lastSeenUs u) then
          [mkFinishEvent u ts]
        else [] := by
  unfold makeFallEventPackets fallEventsFor
  dsimp only
  rw [List.filter_append]
  rw [filter_map_events u ts mkStartEvent (fun _ _ => rfl) _ (Finset.sort_nodup _ _)]
  rw [filter_map_events u ts mkFinishEvent (fun _ _ => rfl) _ (Finset.sort_nodup _ _)]
  simp only [Finset.mem_sort, Finset.mem_sdiff, Finset.mem_filter]
  by_cases hf : u ∈ fallingTracks dets <;>
    by_cases ha : u ∈ s.activeKeys <;>
    by_cases hc : u ∈ seenTracks dets ∨ grace ≤ ts - s.lastSeenUs u <;>
    simp [hf, ha, hc, Finset.mem_union]

/-- Membership in `m_activeFallTracks` after one step. -/
lemma fallStep_activeKeys (grace : ℤ) (s : FallState) (dets : DetectionList)
    (ts : ℤ) (u : ℕ) :
    u ∈ (makeFallEventPackets grace s dets ts).1.activeKeys
      ↔ ((u ∈ s.activeKeys ∨ u ∈ fallingTracks dets) ∧
         ¬(u ∈ s.activeKeys ∧ u ∉ fallingTracks dets ∧
           (u ∈ seenTracks dets ∨ grace ≤ ts - s.lastSeenUs u))) := by
  unfold makeFallEventPackets
  dsimp only
  simp only [Finset.mem_sdiff, Finset.mem_union, Finset.mem_filter]
  by_cases hf : u ∈ fallingTracks dets <;>
    by_cases ha : u ∈ s.activeKeys <;>
    by_cases hc : u ∈ seenTracks dets ∨ grace ≤ ts - s.lastSeenUs u <;>
    simp [hf, ha, hc, Finset.mem_union]

/-- The stored `lastSeenUs` after one step. -/
lemma fallStep_lastSeen (grace : ℤ) (s : FallState) (dets : DetectionList)
    (ts : ℤ) (u : ℕ) :
    (makeFallEventPackets grace s dets ts).1.lastSeenUs u
      = if u ∈ fallingTracks dets then ts else s.lastSeenUs u := rfl

/-- The alternation invariant: the events emitted so far for track `u`
form a closed `(START FINISH)*` word when `u` is not active, and a
closed word followed by one open START when it is. -/
def sfStatus (u : ℕ) (s : FallState) (events : List FallEvent) : Prop :=
  (u ∈ s.activeKeys →
    ∃ q, fallKindsFor u events = q ++ [FallKind.start] ∧ SFClosed q) ∧
  (u ∉ s.activeKeys → SFClosed (fallKindsFor u events))

lemma fallKindsFor_append (u : ℕ) (a b : List FallEvent) :
    fallKindsFor u (a ++ b) = fallKindsFor u a ++ fallKindsFor u b := by
  unfold fallKindsFor fallEventsFor
  rw [List.filter_append, List.map_append]

lemma sfStatus_step (grace : ℤ) (s : FallState) (dets : DetectionList) (ts : ℤ)
    (u : ℕ) (events : List FallEvent) (h : sfStatus u s events) :
    sfStatus u (makeFallEventPackets grace s dets ts).1
      (events ++ (makeFallEventPackets grace s dets ts).2) := by
  obtain ⟨hact, hinact⟩ := h
  have hkinds : fallKindsFor u (makeFallEventPackets grace s dets ts).2
      = if u ∈ fallingTracks dets ∧ u ∉ s.activeKeys then [FallKind.start]
        else if u ∈ s.activeKeys ∧ u ∉ fallingTracks dets ∧
            (u ∈ seenTracks dets ∨ grace ≤ ts - s.lastSeenUs u) then
          [FallKind.finish]
        else [] := by
    unfold fallKindsFor
    rw [fallStep_filter]
    split_ifs <;> rfl
  rw [sfStatus, fallKindsFor_append, hkinds, fallStep_activeKeys]
  by_cases hf : u ∈ fallingTracks dets <;>
    by_cases ha : u ∈ s.activeKeys <;>
    by_cases hc : u ∈ seenTracks dets ∨ grace ≤ ts - s.lastSeenUs u <;>
    simp [hf, ha, hc]
  all_goals first
    | exact hact ha
    | exact hinact ha
    | (obtain ⟨q, hq, hqc⟩ := hact ha
       rw [hq, List.append_assoc]
       exact SFClosed_append hqc)

lemma fallRun_status (grace : ℤ) (frames : List (DetectionList × ℤ)) :
    ∀ (s : FallState) (events : List FallEvent) (u : ℕ), sfStatus u s events →
      sfStatus u (fallRun grace s frames).1 (events ++ (fallRun grace s frames).2) := by
  induction frames with
  | nil => intro s events u h; simpa [fallRun] using h
  | cons frame rest ih =>
    intro s events u h
    unfold fallRun
    dsimp only
    have hstep := sfStatus_step grace s frame.1 frame.2 u events h
    have hrest := ih _ _ u hstep
    simpa [List.append_assoc] using hrest

/-- C2: over any frame sequence processed by one worker from a fresh
agent, the fall events emitted for each track UUID alternate START,
FINISH, START, … — they form a `(START FINISH)*` word when the track
is not in `m_activeFallTracks` at the end, and such a word followed by
the one open START when it is.  Hence at most one START per contiguous
fall episode, exactly one FINISH per completed START, and no FINISH
before its START. -/
theorem fall_events_alternate (grace : ℤ) (frames : List (DetectionList × ℤ))
    (u : ℕ) :
    (u ∉ (fallRun grace initialFallState frames).1.activeKeys →
      SFClosed (fallKindsFor u (fallRun grace initialFallState frames).2)) ∧
    (u ∈ (fallRun grace initialFallState frames).1.activeKeys →
      ∃ q, fallKindsFor u (fallRun grace initialFallState frames).2
        = q ++ [FallKind.start] ∧ SFClosed q) := by
  have h := fallRun_status grace frames initialFallState [] u
    ⟨fun hmem => absurd hmem (by simp [initialFallState]), fun _ => SFClosed.nil⟩
  rw [sfStatus, List.nil_append] at h
  exact ⟨h.2, h.1⟩

/-- C2 witness: track 7 falls at t=0 and is seen upright at t=200000 —
the projected word is `[START, FINISH]`, a closed `(START FINISH)*`
word. -/
theorem fall_events_alternate_witness :
    SFClosed (fallKindsFor 7
      (fallRun 3000000 initialFallState
        [([⟨⟨0, 0, 1/2, 1/2⟩, "person", 1, true, none, 7⟩], 0),
         ([⟨⟨0, 0, 1/2, 1/2⟩, "person", 1, false, none, 7⟩], 200000)]).2) :=
  (fall_events_alternate 3000000
    [([⟨⟨0, 0, 1/2, 1/2⟩, "person", 1, true, none, 7⟩], 0),
     ([⟨⟨0, 0, 1/2, 1/2⟩, "person", 1, false, none, 7⟩], 200000)] 7).1
    (by decide)

lemma not_seen_of_absent {u : ℕ} {dets : DetectionList}
    (h : ∀ d ∈ dets, d.trackId ≠ u) : u ∉ seenTracks dets := by
  unfold seenTracks
  simp only [List.mem_toFinset, List.mem_map, not_exists]
  rintro d ⟨hd, hdu⟩
  exact h d hd hdu

lemma not_falling_of_absent {u : ℕ} {dets : DetectionList}
    (h : ∀ d ∈ dets, d.trackId ≠ u) : u ∉ fallingTracks dets := by
  unfold fallingTracks
  simp only [List.mem_toFinset, List.mem_map, not_exists]
  rintro d ⟨hd, hdu⟩
  exact h d (List.mem_of_mem_filter hd) hdu

/-- A track that is not active and never detected stays inactive and
silent. -/
lemma fall_inactive_stays (grace : ℤ) (frames : List (DetectionList × ℤ)) :
    ∀ (s : FallState) (u : ℕ), u ∉ s.activeKeys →
      (∀ frame ∈ frames, ∀ d ∈ frame.1, d.trackId ≠ u) →
      fallEventsFor u (fallRun grace s frames).2 = [] ∧
      u ∉ (fallRun grace s frames).1.activeKeys := by
  induction frames with
  | nil => intro s u hu _; exact ⟨rfl, hu⟩
  | cons frame rest ih =>
    intro s u hu habs
    have habs0 : ∀ d ∈ frame.1, d.trackId ≠ u := habs frame (List.mem_cons_self _ _)
    have hseen := not_seen_of_absent habs0
    have hfall := not_falling_of_absent habs0
    unfold fallRun
    dsimp only
    have hstep : fallEventsFor u (makeFallEventPackets grace s frame.1 frame.2).2 = [] := by
      rw [fallStep_filter, if_neg (by tauto), if_neg (by tauto)]
    have hmem : u ∉ (makeFallEventPackets grace s frame.1 frame.2).1.activeKeys := by
      rw [fallStep_activeKeys]
      simp [hu, hfall]
    obtain ⟨hrest, hrestmem⟩ :=
      ih _ u hmem (fun f hf => habs f (List.mem_cons_of_mem _ hf))
    refine ⟨?_, hrestmem⟩
    unfold fallEventsFor at hstep hrest ⊢
    rw [List.filter_append, hstep, hrest, List.append_nil]

/-- An active track never detected again gets its FINISH exactly at the
first frame whose timestamp triggers the grace condition; until then
its entry is kept unchanged and nothing is emitted. -/
lemma fall_grace_run (grace : ℤ) (frames : List (DetectionList × ℤ)) :
    ∀ (s : FallState) (u : ℕ) (t0 : ℤ), u ∈ s.activeKeys → s.lastSeenUs u = t0 →
      (∀ frame ∈ frames, ∀ d ∈ frame.1, d.trackId ≠ u) →
      (fallEventsFor u (fallRun grace s frames).2
        = (match frames.find? (fun frame => decide (grace ≤ frame.2 - t0)) with
           | some frame => [mkFinishEvent u frame.2]
           | none => [])) ∧
      (frames.find? (fun frame => decide (grace ≤ frame.2 - t0)) = none →
        u ∈ (fallRun grace s frames).1.activeKeys ∧
        (fallRun grace s frames).1.lastSeenUs u = t0) := by
  induction frames with
  | nil =>
    intro s u t0 hu hl _
    exact ⟨rfl, fun _ => ⟨hu, hl⟩⟩
  | cons frame rest ih =>
    intro s u t0 hu hl habs
    have habs0 : ∀ d ∈ frame.1, d.trackId ≠ u := habs frame (List.mem_cons_self _ _)
    have habsr : ∀ f ∈ rest, ∀ d ∈ f.1, d.trackId ≠ u :=
      fun f hf => habs f (List.mem_cons_of_mem _ hf)
    have hseen := not_seen_of_absent habs0
    have hfall := not_falling_of_absent habs0
    unfold fallRun
    dsimp only
    by_cases htrig : grace ≤ frame.2 - t0
    · have hfind : (frame :: rest).find? (fun frame => decide (grace ≤ frame.2 - t0))
          = some frame := by
        rw [List.find?_cons_of_pos _ (by simpa using htrig)]
      rw [hfind]
      have hstep : fallEventsFor u (makeFallEventPackets grace s frame.1 frame.2).2
          = [mkFinishEvent u frame.2] := by
        rw [fallStep_filter, if_neg (by tauto),
          if_pos ⟨hu, hfall, Or.inr (by rw [hl]; linarith)⟩]
      have hmem : u ∉ (makeFallEventPackets grace s frame.1 frame.2).1.activeKeys := by
        rw [fallStep_activeKeys]
        push_neg
        intro _
        exact ⟨hu, hfall, Or.inr (by rw [hl]; linarith)⟩
      obtain ⟨hrest, _⟩ := fall_inactive_stays grace rest _ u hmem habsr
      refine ⟨?_, fun hnone => by cases hnone⟩
      unfold fallEventsFor at hstep hrest ⊢
      rw [List.filter_append, hstep, hrest, List.append_nil]
    · have hfind : (frame :: rest).find? (fun frame => decide (grace ≤ frame.2 - t0))
          = rest.find? (fun frame => decide (grace ≤ frame.2 - t0)) := by
        rw [List.find?_cons_of_neg _ (by simpa using htrig)]
      rw [hfind]
      have hstep : fallEventsFor u (makeFallEventPackets grace s frame.1 frame.2).2
          = [] := by
        rw [fallStep_filter, if_neg (by tauto), if_neg ?_]
        rintro ⟨-, -, hor⟩
        rcases hor with hsn | hgr
        · exact hseen hsn
        · rw [hl] at hgr
          exact htrig hgr
      have hmem : u ∈ (makeFallEventPackets grace s frame.1 frame.2).1.activeKeys := by
        rw [fallStep_activeKeys]
        refine ⟨Or.inl hu, ?_⟩
        rintro ⟨-, -, hor⟩
        rcases hor with hsn | hgr
        · exact hseen hsn
        · rw [hl] at hgr
          exact htrig hgr
      have hlast' : (makeFallEventPackets grace s frame.1 frame.2).1.lastSeenUs u = t0 := by
        rw [fallStep_lastSeen, if_neg hfall, hl]
      obtain ⟨hrest, hrestState⟩ := ih _ u t0 hmem hlast' habsr
      refine ⟨?_, hrestState⟩
      unfold fallEventsFor at hstep hrest ⊢
      rw [List.filter_append, hstep, hrest, List.nil_append]

/-- C3: for a track in `m_activeFallTracks` whose detections this
frame do not include `fallDetected = true`: if the track is seen this
frame, exactly one FINISH timestamped with this frame's `timestampUs`
is emitted this frame and the entry is removed; if the track is never
seen again, the FINISH is emitted exactly at the first processed frame
whose timestamp satisfies `timestamp − lastSeenUs ≥ fallFinishGraceUs`
(and at no other frame), and until then the entry is kept with its
`lastSeenUs` unchanged and no event for the track is emitted. -/
theorem fall_finish_timing (grace : ℤ) (s : FallState) (u : ℕ) (t0 : ℤ)
    (frames : List (DetectionList × ℤ))
    (hu : u ∈ s.activeKeys) (hlast : s.lastSeenUs u = t0)
    (habs : ∀ frame ∈ frames, ∀ d ∈ frame.1, d.trackId ≠ u) :
    (∀ (dets : DetectionList) (ts : ℤ),
      u ∈ seenTracks dets → u ∉ fallingTracks dets →
      fallEventsFor u (makeFallEventPackets grace s dets ts).2
        = [mkFinishEvent u ts] ∧
      u ∉ (makeFallEventPackets grace s dets ts).1.activeKeys) ∧
    fallEventsFor u (fallRun grace s frames).2
      = (match frames.find? (fun frame => decide (grace ≤ frame.2 - t0)) with
         | some frame => [mkFinishEvent u frame.2]
         | none => []) ∧
    (frames.find? (fun frame => decide (grace ≤ frame.2 - t0)) = none →
      u ∈ (fallRun grace s frames).1.activeKeys ∧
      (fallRun grace s frames).1.lastSeenUs u = t0) := by
  refine ⟨?_, (fall_grace_run grace frames s u t0 hu hlast habs).1,
    (fall_grace_run grace frames s u t0 hu hlast habs).2⟩
  intro dets ts hseen hfall
  constructor
  · rw [fallStep_filter, if_neg (by tauto), if_pos ⟨hu, hfall, Or.inl hseen⟩]
  · rw [fallStep_activeKeys]
    push_neg
    intro _
    exact ⟨hu, hfall, Or.inl hseen⟩

/-- C3 witness: track 7 active since t0 = 0 with a 3 s grace, frames
at 1 s and 3 s with no detections — the FINISH is emitted exactly at
the 3 s frame. -/
theorem fall_finish_timing_witness :
    fallEventsFor 7 (fallRun 3000000 ⟨{7}, fun _ => 0⟩
        [([], 1000000), ([], 3000000)]).2
      = [mkFinishEvent 7 3000000] := by
  have h := (fall_finish_timing 3000000 ⟨{7}, fun _ => 0⟩ 7 0
    [([], 1000000), ([], 3000000)]
    (by decide) rfl (by simp)).2.1
  simpa using h

end SafeAging
